import Mathlib

/-!
Verification development for the mecla media-relocation tool.

The Rust sources are shallowly embedded: file and directory names are lists
of characters, paths are lists of names, file contents are abstracted to
natural numbers (the BLAKE3 digest of a file is identified with its content,
which is sound because the code only ever compares digests for equality and
renders their hexadecimal encoding).  Environmental effects (the success of
rename, copy and delete system calls, the output of the external exiftool
process, the modification time of a file) are passed in as explicit oracle
parameters, exactly at the points where the source code performs the
corresponding fallible call.
-/

namespace Mecla

/-- A file or directory name: the character data of a Rust string. -/
abbrev FName := List Char

/-- A filesystem path, as its list of components (Rust Path components). -/
abbrev FPath := List FName

/-- Decimal digit character, models Rust numeric formatting of one digit. -/
def digitChar (d : Nat) : Char := Char.ofNat (48 + d)

/-- Fuel-driven decimal rendering of a natural number, least significant
digit produced by the modulus in each step; models the digit loop of the
Rust standard formatter.  The fuel is always called with `n + 1`, which is
sufficient since `n / 10 < n` for `n ≥ 10`. -/
def natDigitsAux : Nat → Nat → List Char
  | 0, _ => []
  | fuel + 1, n =>
    if n < 10 then [digitChar n]
    else natDigitsAux fuel (n / 10) ++ [digitChar (n % 10)]

/-- Decimal rendering of a natural number, models Rust `format!("{}", n)`. -/
def natStr (n : Nat) : List Char := natDigitsAux (n + 1) n

/-- Zero-padded decimal rendering, models Rust `format!("{:0w}", n)`:
the width `w` is a minimum width, longer numbers are rendered in full. -/
def rustPad (w n : Nat) : List Char :=
  List.replicate (w - (natStr n).length) '0' ++ natStr n

/-- A naive calendar timestamp with second precision, models
`chrono::NaiveDateTime` as used by the tool (field accessors year, month,
day, hour, minute, second). -/
structure DT where
  year : Nat
  month : Nat
  day : Nat
  hour : Nat
  minute : Nat
  second : Nat
  deriving DecidableEq

/-- Embedding of `naming.rs` / `main.rs` `format_filename`:
`"{:04}-{:02}-{:02} {:02}.{:02}.{:02}.{ext}"`. -/
def format_filename (dt : DT) (ext : FName) : FName :=
  rustPad 4 dt.year ++ ['-'] ++ rustPad 2 dt.month ++ ['-'] ++ rustPad 2 dt.day
    ++ [' '] ++ rustPad 2 dt.hour ++ ['.'] ++ rustPad 2 dt.minute ++ ['.']
    ++ rustPad 2 dt.second ++ ['.'] ++ ext

/-- Embedding of `format_filename_with_suffix`:
`"{:04}-{:02}-{:02} {:02}.{:02}.{:02} {sfx}.{ext}"`. -/
def format_filename_with_suffix (dt : DT) (sfx ext : FName) : FName :=
  rustPad 4 dt.year ++ ['-'] ++ rustPad 2 dt.month ++ ['-'] ++ rustPad 2 dt.day
    ++ [' '] ++ rustPad 2 dt.hour ++ ['.'] ++ rustPad 2 dt.minute ++ ['.']
    ++ rustPad 2 dt.second ++ [' '] ++ sfx ++ ['.'] ++ ext

/-- ASCII whitespace test used to model Rust `str::trim`. -/
def isWsChar (c : Char) : Bool :=
  c == ' ' || c == '\t' || c == '\n' || c == '\r'

/-- Models Rust `str::trim`: drop leading and trailing whitespace. -/
def trimName (s : FName) : FName :=
  ((s.dropWhile isWsChar).reverse.dropWhile isWsChar).reverse

/-- Embedding of `naming.rs` / `main.rs` `build_target_dir`: the directory is
`output_root/YYYY/MM` or `output_root/YYYY/MM <trimmed tag>` when a tag is
present and nonempty after trimming. -/
def build_target_dir (output_root : FPath) (dt : DT) (tag : Option FName) : FPath :=
  let year := rustPad 4 dt.year
  let month := rustPad 2 dt.month
  let month_dir_name :=
    match tag with
    | some t => if (trimName t).isEmpty then month else month ++ [' '] ++ trimName t
    | none => month
  output_root ++ [year, month_dir_name]

/-- Models `Path::strip_prefix`: remove the leading components equal to the
root, or fail when the path does not start with the root. -/
def stripRoot : FPath → FPath → Option FPath
  | [], s => some s
  | _ :: _, [] => none
  | r :: rs, x :: xs => if x = r then stripRoot rs xs else none

/-- Embedding of `naming.rs` / `main.rs` `infer_tag`: the first component of
the path relative to the input root, provided a second component follows
(the file is nested at least two levels deep); `none` otherwise. -/
def infer_tag (input_root : FPath) (src : FPath) : Option FName :=
  match stripRoot input_root src with
  | none => none
  | some rel =>
    match rel with
    | t :: _ :: _ => some t
    | _ => none

/-- Models Rust `Path::extension`: the portion of the file name after the
last dot, or none when there is no dot or when the only dot is leading
(hidden files such as `.gitignore` have no extension). -/
def rustExtension (name : FName) : Option FName :=
  let rev := name.reverse
  let afterRev := rev.takeWhile (fun c => c ≠ '.')
  if afterRev.length = rev.length then none
  else if rev.drop (afterRev.length + 1) = [] then none
  else some afterRev.reverse

/-- Lowercasing of a name, models Rust `str::to_lowercase` on ASCII data. -/
def toLowerName (s : FName) : FName := s.map Char.toLower

/-- Extension of the last path component, models `Path::extension` applied to
a full path. -/
def pathExtension (p : FPath) : Option FName :=
  match p.getLast? with
  | some name => rustExtension name
  | none => none

/-- Embedding of `filesystem.rs` / `main.rs` `is_supported`: lowercase the
extension and test membership in the allow-list. -/
def is_supported (p : FPath) (exts : List FName) : Bool :=
  match pathExtension p with
  | none => false
  | some e => exts.any (fun x => x == toLowerName e)

/-- Lowercase hexadecimal digit character. -/
def hexDigitChar (d : Nat) : Char :=
  if d < 10 then Char.ofNat (48 + d) else Char.ofNat (87 + d)

/-- Models `blake3::Hash::to_hex`: the fixed 64-character lowercase
hexadecimal rendering of the 256-bit digest (the digest itself is abstracted
to a natural number; the byte order of the encoding is irrelevant to every
claim, only that it is a fixed 64-character injective encoding). -/
def hexOfDigest (h : Nat) : FName :=
  (List.range 64).map (fun i => hexDigitChar (h / 16 ^ (63 - i) % 16))

/-- Embedding of `filesystem.rs` / `main.rs` `hash_prefix`: the first
`min n 64` characters of the hex encoding, uppercased. -/
def hash_prefix (hex : FName) (n : Nat) : FName :=
  (hex.take (min n hex.length)).map Char.toUpper

/-- The prefix lengths probed by the collision loop of `handle_one`:
it starts at 8 and grows by 4 up to the bound 20. -/
def ladder : List Nat := [8, 12, 16, 20]

/-- Embedding of the collision-probing loop in `handle_one` (`main.rs`,
lines 258-280): given the occupancy test for a candidate prefix length,
return the first free length, or none after the length bound 20 is reached.
The fuel argument only realises termination: started from length 8 the loop
performs at most four iterations, so fuel 4 is never exhausted. -/
def collisionLoop : Nat → (Nat → Bool) → Nat → Option Nat
  | 0, _, _ => none
  | fuel + 1, occupied, n =>
    if occupied n = false then some n
    else if 20 ≤ n then none
    else collisionLoop fuel occupied (n + 4)

/-- The collision loop as run by `handle_one`: start at prefix length 8. -/
def findFreeLen (occupied : Nat → Bool) : Option Nat :=
  collisionLoop 4 occupied 8

/-- Specification-side rendering with exact field width, following the words
of the spec: a field of width `w` consists of exactly `w` decimal digits,
most significant first. -/
def specExactDigits (w n : Nat) : FName :=
  (List.range w).map (fun i => digitChar (n / 10 ^ (w - 1 - i) % 10))

/-- Specification-side filename shape: exactly four year digits, exactly two
digits in every other field, separators as in the spec. -/
def specFilename (dt : DT) (ext : FName) : FName :=
  specExactDigits 4 dt.year ++ ['-'] ++ specExactDigits 2 dt.month ++ ['-']
    ++ specExactDigits 2 dt.day ++ [' '] ++ specExactDigits 2 dt.hour ++ ['.']
    ++ specExactDigits 2 dt.minute ++ ['.'] ++ specExactDigits 2 dt.second
    ++ ['.'] ++ ext

/-- Specification-side suffixed filename shape. -/
def specFilenameSuffixed (dt : DT) (sfx ext : FName) : FName :=
  specExactDigits 4 dt.year ++ ['-'] ++ specExactDigits 2 dt.month ++ ['-']
    ++ specExactDigits 2 dt.day ++ [' '] ++ specExactDigits 2 dt.hour ++ ['.']
    ++ specExactDigits 2 dt.minute ++ ['.'] ++ specExactDigits 2 dt.second
    ++ [' '] ++ sfx ++ ['.'] ++ ext

/-- Specification-side target directory: `output_root/YYYY/MM` without a tag
(or with a tag that trims to empty), `output_root/YYYY/MM <trimmed tag>`
otherwise, with exact field widths. -/
def specTargetDir (output_root : FPath) (dt : DT) (tag : Option FName) : FPath :=
  let year := specExactDigits 4 dt.year
  let month := specExactDigits 2 dt.month
  let month_dir_name :=
    match tag with
    | some t => if (trimName t).isEmpty then month else month ++ [' '] ++ trimName t
    | none => month
  output_root ++ [year, month_dir_name]

/-! ## Flat filesystem model

Files are an association list from paths to abstract contents (a natural
number standing for the byte stream, hence also for its BLAKE3 digest);
directories created so far are tracked as a list of paths.  This is the view
of the filesystem used by `handle_one` and `move_or_copy`. -/

/-- Lookup in the file association list. -/
def filesGet : List (FPath × Nat) → FPath → Option Nat
  | [], _ => none
  | (q, v) :: rest, p => if p = q then some v else filesGet rest p

/-- Remove a path from the file association list. -/
def filesErase : List (FPath × Nat) → FPath → List (FPath × Nat)
  | [], _ => []
  | (q, v) :: rest, p =>
    if q = p then filesErase rest p else (q, v) :: filesErase rest p

/-- Add or replace a file. -/
def filesInsert (p : FPath) (v : Nat) (l : List (FPath × Nat)) : List (FPath × Nat) :=
  (p, v) :: filesErase l p

/-- The filesystem state seen by the mover and the conflict resolver. -/
structure FS where
  files : List (FPath × Nat)
  dirs : List FPath
  deriving DecidableEq

/-- Content stored at a path, none when no file is there.  Hashing a file
(`blake3_file`) succeeds exactly when the file is present and readable,
which the model identifies with presence. -/
def fsGet (fs : FS) (p : FPath) : Option Nat := filesGet fs.files p

/-- Models `Path::exists` on the file namespace. -/
def fsExists (fs : FS) (p : FPath) : Bool := (fsGet fs p).isSome

/-- All nonempty ancestor paths of a path, shortest first. -/
def prefixPaths (p : FPath) : List FPath :=
  (List.range p.length).map (fun i => p.take (i + 1))

/-- Insert a directory path if it is not already present. -/
def insertDir (p : FPath) (l : List FPath) : List FPath :=
  if p ∈ l then l else p :: l

/-- Models `fs::create_dir_all`: create the directory and every missing
ancestor. -/
def createDirAll (p : FPath) (fs : FS) : FS :=
  { fs with dirs := (prefixPaths p).foldl (fun acc q => insertDir q acc) fs.dirs }

/-- Models `fs::rename`: the content leaves the source path and appears at
the destination.  Called only when the rename oracle reports success. -/
def renameFile (src dest : FPath) (fs : FS) : FS :=
  match filesGet fs.files src with
  | some v => { fs with files := filesInsert dest v (filesErase fs.files src) }
  | none => fs

/-- Models `fs::copy`: the content is duplicated at the destination, the
source is kept. -/
def copyFile (src dest : FPath) (fs : FS) : FS :=
  match filesGet fs.files src with
  | some v => { fs with files := filesInsert dest v fs.files }
  | none => fs

/-- Models `fs::remove_file`. -/
def removeFile (p : FPath) (fs : FS) : FS :=
  { fs with files := filesErase fs.files p }

/-- The log verbosity switch of the tool (`--log all|conflicts|errors`). -/
inductive LogMode where
  | all
  | conflicts
  | errors
  deriving DecidableEq

/-- The intended-action messages printed by the tool (stdout logging;
per-file error reports go to stderr unconditionally and are modeled by the
error results themselves). -/
inductive LogMsg where
  | move : FPath → FPath → LogMsg
  | conflict : FPath → FPath → LogMsg
  | skipDup : FPath → LogMsg
  | renameTo : FPath → LogMsg
  | pruneTag : FPath → LogMsg
  deriving DecidableEq

/-- Models `cfg_log_all`: printed only under `--log all`. -/
def logAllMsg (m : LogMode) (msg : LogMsg) : List LogMsg :=
  match m with
  | .all => [msg]
  | _ => []

/-- Models `cfg_log_conflict`: printed under `--log all` and
`--log conflicts`. -/
def logConflictMsg (m : LogMode) (msg : LogMsg) : List LogMsg :=
  match m with
  | .all => [msg]
  | .conflicts => [msg]
  | .errors => []

/-- The configuration fields consumed by the embedded functions. -/
structure Cfg where
  input : FPath
  output : FPath
  dryRun : Bool
  log : LogMode
  exts : List FName
  deriving DecidableEq

/-- Success oracles for the environmental system calls performed while
handling one file: whether `fs::rename`, `fs::copy` and `fs::remove_file`
succeed when invoked. -/
structure Oracles where
  renameOk : Bool
  copyOk : Bool
  removeOk : Bool
  deriving DecidableEq

/-- The error of `move_or_copy`, named after the context the code attaches:
either both the rename error and the copy error are reported, or the rename
error together with the fact that the copy succeeded but the source removal
failed (content present at both paths). -/
inductive MoveErr where
  | renameAndCopyFailed
  | renameFailedCopySucceededRemoveFailed
  deriving DecidableEq

/-- Result of `move_or_copy`: error (none on success), resulting filesystem,
emitted log. -/
structure MRes where
  err : Option MoveErr
  fs : FS
  log : List LogMsg
  deriving DecidableEq

/-- The parent of a path, models `Path::parent`. -/
def parentDir (p : FPath) : Option FPath :=
  match p with
  | [] => none
  | _ => some p.dropLast

/-- The directory-creation step at the head of `move_or_copy`: create all
missing ancestors of the destination, a no-op under dry-run or when the
destination has no parent. -/
def ensureParentDirs (dryRun : Bool) (dest : FPath) (fs : FS) : FS :=
  match parentDir dest with
  | some par => if dryRun then fs else createDirAll par fs
  | none => fs

/-- Embedding of `filesystem.rs` / `main.rs` `move_or_copy`: create the
missing ancestors of the destination (skipped under dry-run), log the
intended move, stop there under dry-run; otherwise attempt a rename and on
failure fall back to copy followed by removal of the source. -/
def move_or_copy (cfg : Cfg) (ora : Oracles) (src dest : FPath) (fs : FS) : MRes :=
  let fs1 := ensureParentDirs cfg.dryRun dest fs
  let lg := logAllMsg cfg.log (.move src dest)
  if cfg.dryRun then ⟨none, fs, lg⟩
  else if ora.renameOk then ⟨none, renameFile src dest fs1, lg⟩
  else if ora.copyOk then
    let fs2 := copyFile src dest fs1
    if ora.removeOk then ⟨none, removeFile src fs2, lg⟩
    else ⟨some .renameFailedCopySucceededRemoveFailed, fs2, lg⟩
  else ⟨some .renameAndCopyFailed, fs1, lg⟩

/-- The per-file processing outcome of the data model (`ProcessingOutcome`),
recording the destination actually used. -/
inductive Outcome where
  | moved : FPath → Outcome
  | renamedOnCollision : FPath → Outcome
  | skippedDuplicate : Outcome
  deriving DecidableEq

/-- The per-file errors surfaced by `handle_one`. -/
inductive HErr where
  | noDate
  | noExtension
  | hashSourceFailed
  | hashDestFailed
  | deleteDupFailed
  | persistentCollision
  | moveFailed : MoveErr → HErr
  deriving DecidableEq

/-- Success or per-file error of `handle_one`. -/
inductive HStatus where
  | ok : Outcome → HStatus
  | error : HErr → HStatus
  deriving DecidableEq

/-- Result of `handle_one`: status, filesystem, touched-tag set, log. -/
structure HRes where
  res : HStatus
  fs : FS
  tags : List FName
  log : List LogMsg
  deriving DecidableEq

/-- Models `HashSet::insert` on the touched-tag set. -/
def insertTag (t : FName) (l : List FName) : List FName :=
  if t ∈ l then l else t :: l

/-- Embedding of `main.rs` `handle_one` (lines 214-283).  The date resolved
for the file is passed as `dtRes`, the result of the date-resolution step
(the `extract_datetime_with_exiftool` copy in `main.rs`, modeled
separately); the system-call oracles are `ora`.  The outcome labels
correspond to the branches of the source: direct move, duplicate skip,
collision rename, or the per-file errors. -/
def handle_one (cfg : Cfg) (ora : Oracles) (dtRes : Option DT) (src : FPath)
    (fs : FS) (tags : List FName) : HRes :=
  let tag := infer_tag cfg.input src
  let tags1 :=
    match tag with
    | some t => insertTag t tags
    | none => tags
  match dtRes with
  | none => ⟨.error .noDate, fs, tags1, []⟩
  | some dt =>
    match pathExtension src with
    | none => ⟨.error .noExtension, fs, tags1, []⟩
    | some ext0 =>
      let ext := toLowerName ext0
      let target_dir := build_target_dir cfg.output dt tag
      let dest := target_dir ++ [format_filename dt ext]
      if fsExists fs dest = false then
        let m := move_or_copy cfg ora src dest fs
        ⟨(match m.err with
          | none => .ok (.moved dest)
          | some e => .error (.moveFailed e)), m.fs, tags1, m.log⟩
      else
        let lg1 := logConflictMsg cfg.log (.conflict src dest)
        match fsGet fs src with
        | none => ⟨.error .hashSourceFailed, fs, tags1, lg1⟩
        | some srcH =>
          match fsGet fs dest with
          | none => ⟨.error .hashDestFailed, fs, tags1, lg1⟩
          | some dstH =>
            if srcH = dstH then
              let lg2 := lg1 ++ logConflictMsg cfg.log (.skipDup src)
              if cfg.dryRun then ⟨.ok .skippedDuplicate, fs, tags1, lg2⟩
              else if ora.removeOk then
                ⟨.ok .skippedDuplicate, removeFile src fs, tags1, lg2⟩
              else ⟨.error .deleteDupFailed, fs, tags1, lg2⟩
            else
              match findFreeLen (fun n =>
                  fsExists fs (target_dir ++
                    [format_filename_with_suffix dt
                      ( hash_prefix (hexOfDigest srcH) n) ext])) with
              | none => ⟨.error .persistentCollision, fs, tags1, lg1⟩
              | some n =>
                let altDest := target_dir ++
                  [format_filename_with_suffix dt
                    ( hash_prefix (hexOfDigest srcH) n) ext]
                let lg2 := lg1 ++ logConflictMsg cfg.log (.renameTo altDest)
                let m := move_or_copy cfg ora src altDest fs
                ⟨(match m.err with
                  | none => .ok (.renamedOnCollision altDest)
                  | some e => .error (.moveFailed e)), m.fs, tags1, lg2 ++ m.log⟩

/-- One unit of work of the sequential per-file loop in `process`: the
source path, the resolved date (outcome of the date-resolution collaborator
for this file) and the system-call oracles for this file. -/
structure Job where
  src : FPath
  dtRes : Option DT
  ora : Oracles

/-- Result of the per-file loop of `process`. -/
structure PRes where
  fs : FS
  tags : List FName
  log : List LogMsg
  outs : List HStatus

/-- Embedding of the per-file loop of `process` (`main.rs`, lines 111-133),
restricted to the eligible files: each file is handled in order, a per-file
error is recorded and processing continues with the next file. -/
def processFiles (cfg : Cfg) : List Job → FS → List FName → PRes
  | [], fs, tags => ⟨fs, tags, [], []⟩
  | j :: rest, fs, tags =>
    let r := handle_one cfg j.ora j.dtRes j.src fs tags
    let p := processFiles cfg rest r.fs r.tags
    ⟨p.fs, p.tags, r.log ++ p.log, r.res :: p.outs⟩

/-! ## Directory-tree model for the pruning phase

Pruning walks a directory subtree (the tag directory), so it is modeled on
an explicit tree of entries.  `WalkDir` with `contents_first` visits
children before their parent; removing a child directory that is empty at
visit time and then testing the parent for emptiness is exactly the
recursive transformation `pruneList` below. -/

mutual
/-- A filesystem entry: a file with abstract content, or a directory with
its children. -/
inductive Entry where
  | file : FName → Nat → Entry
  | dir : FName → EList → Entry

/-- A list of sibling entries. -/
inductive EList where
  | nil : EList
  | cons : Entry → EList → EList
end

/-- Whether a file name has a supported extension, the name-level core of
`is_supported`. -/
def isSupportedName (name : FName) (exts : List FName) : Bool :=
  match rustExtension name with
  | none => false
  | some e => exts.any (fun x => x == toLowerName e)

mutual
/-- Embedding of `contains_supported_media` restricted to one entry: some
supported media file exists anywhere beneath it. -/
def entryHasMedia (exts : List FName) : Entry → Bool
  | .file name _ => isSupportedName name exts
  | .dir _ cs => listHasMedia exts cs

/-- Embedding of `contains_supported_media` on the children of a directory:
the recursive walk finds some supported media file. -/
def listHasMedia (exts : List FName) : EList → Bool
  | .nil => false
  | .cons e rest => entryHasMedia exts e || listHasMedia exts rest
end

mutual
/-- Some file (of any kind, media or not) exists beneath the entry. -/
def entryHasFile : Entry → Bool
  | .file _ _ => true
  | .dir _ cs => listHasFile cs

/-- Some file exists among the entries or beneath them. -/
def listHasFile : EList → Bool
  | .nil => false
  | .cons e rest => entryHasFile e || listHasFile rest
end

mutual
/-- Net effect of `prune_empty_dirs_recursively` on one entry: files are
kept, a directory is first pruned recursively and then removed exactly when
it is empty at that point (`is_dir_empty` checked immediately before
`fs::remove_dir`). -/
def pruneEntry : Entry → Option Entry
  | .file n c => some (.file n c)
  | .dir n cs =>
    match pruneList cs with
    | .nil => none
    | cs' => some (.dir n cs')

/-- Net effect of `prune_empty_dirs_recursively` on the children of the
walked root: children are processed before their parent is tested. -/
def pruneList : EList → EList
  | .nil => .nil
  | .cons e rest =>
    match pruneEntry e with
    | some e' => .cons e' (pruneList rest)
    | none => pruneList rest
end

/-- Emptiness of a sibling list, models `is_dir_empty` of the walked root. -/
def isNilE : EList → Bool
  | .nil => true
  | .cons _ _ => false

mutual
/-- Relative paths and contents of all files beneath an entry, used to state
that pruning never touches a file. -/
def entryFiles : Entry → List (List FName × Nat)
  | .file n c => [([n], c)]
  | .dir n cs => (listFiles cs).map (fun pc => (n :: pc.1, pc.2))

/-- Relative paths and contents of all files beneath a sibling list. -/
def listFiles : EList → List (List FName × Nat)
  | .nil => []
  | .cons e rest => entryFiles e ++ listFiles rest
end

/-- Result of the pruning phase on one tag directory: the surviving children
of the tag directory (none when the tag directory itself was removed), and
the emitted log. -/
structure PruneTagRes where
  tree : Option EList
  log : List LogMsg

/-- Embedding of the body of the per-tag loop of `prune_empty_tag_dirs`
(`main.rs`, lines 146-174), for a tag directory that exists with children
`cs`: skip entirely when supported media remains beneath it; log the
intended prune; stop there under dry-run; otherwise remove empty
subdirectories recursively and finally remove the tag directory itself if it
became empty. -/
def prune_one_tag_dir (lm : LogMode) (exts : List FName) (dryRun : Bool)
    (tagDir : FPath) (cs : EList) : PruneTagRes :=
  if listHasMedia exts cs then ⟨some cs, []⟩
  else
    let lg := logConflictMsg lm (.pruneTag tagDir)
    if dryRun then ⟨some cs, lg⟩
    else
      let cs' := pruneList cs
      if isNilE cs' then ⟨none, lg⟩ else ⟨some cs', lg⟩

/-! ## Date-resolution model (`metadata.rs`)

The exiftool invocation is an external collaborator: its observable result
is whether the process ran at all, whether it exited successfully, and the
lines it printed.  The chrono parser for the fixed format
`%Y-%m-%d %H:%M:%S` is likewise a library collaborator, passed as a
function.  The mtime fallback chain (metadata read, modification time,
conversion to a naive timestamp) is summarised by its overall result. -/

/-- Observable output of a completed exiftool invocation. -/
structure ExifOut where
  success : Bool
  stdoutLines : List FName

/-- The first nonempty trimmed line that parses under the fixed date format,
models the line loop of `try_exiftool`. -/
def firstDateLine (parse : FName → Option DT) : List FName → Option DT
  | [] => none
  | l :: ls =>
    let s := trimName l
    if s.isEmpty then firstDateLine parse ls
    else
      match parse s with
      | some dt => some dt
      | none => firstDateLine parse ls

/-- Embedding of `metadata.rs` `try_exiftool`: fails when the process could
not run (`run = none`), exited with an error, or printed no parsable date
line. -/
def try_exiftool (run : Option ExifOut) (parse : FName → Option DT) : Option DT :=
  match run with
  | none => none
  | some out =>
    if out.success = false then none
    else firstDateLine parse out.stdoutLines

/-- Embedding of `metadata.rs` `extract_datetime_with_exiftool`: use the
exiftool result when available, otherwise fall back to the filesystem
modification time converted to a naive timestamp (`mtime`, none when that
fallback chain itself fails).  Note that `metadata.rs` is dead code in the
compiled binary: `main.rs` declares no modules and calls its own duplicate
of this function, embedded below, which performs no mtime fallback. -/
def extract_datetime_with_exiftool (run : Option ExifOut)
    (parse : FName → Option DT) (mtime : Option DT) : Option DT :=
  match try_exiftool run parse with
  | some dt => some dt
  | none => mtime

/-- Embedding of the `extract_datetime_with_exiftool` duplicate inside
`main.rs` (lines 369-422), the copy the compiled binary actually runs from
`handle_one`: it is verbatim the body of `try_exiftool` (run exiftool, take
the first parsable nonempty line) and bails when exiftool fails, with no
mtime fallback. -/
def extract_datetime_with_exiftool_main (run : Option ExifOut)
    (parse : FName → Option DT) : Option DT :=
  match run with
  | none => none
  | some out =>
    if out.success = false then none
    else firstDateLine parse out.stdoutLines

/-! ## Concrete test scenario

A small concrete world used by witnesses and counterexamples: an input root
`depot` with two media files of the same timestamp, an output root `out`. -/

/-- The extension `jpg`. -/
def jpgName : FName := "jpg".toList

/-- One-element allow-list. -/
def extsJpg : List FName := [jpgName]

/-- A representative timestamp. -/
def dt0 : DT := ⟨2024, 7, 1, 10, 0, 0⟩

/-- A timestamp whose year exceeds four decimal digits (`chrono` supports
years far beyond 9999). -/
def dtY5 : DT := ⟨10000, 1, 2, 3, 4, 5⟩

/-- The input root. -/
def inRoot : FPath := ["depot".toList]

/-- The output root. -/
def outRoot : FPath := ["out".toList]

/-- First source file, directly in the input root. -/
def srcA : FPath := inRoot ++ ["a.jpg".toList]

/-- Second source file, directly in the input root. -/
def srcB : FPath := inRoot ++ ["b.jpg".toList]

/-- Live configuration with full logging. -/
def cfgLive : Cfg := ⟨inRoot, outRoot, false, .all, extsJpg⟩

/-- The same configuration with dry-run set. -/
def cfgDry : Cfg := ⟨inRoot, outRoot, true, .all, extsJpg⟩

/-- All system calls succeed. -/
def oraAll : Oracles := ⟨true, true, true⟩

/-- Rename fails, the copy and delete fallback succeeds. -/
def oraFallback : Oracles := ⟨false, true, true⟩

/-- Rename fails, the copy succeeds, the post-copy delete fails. -/
def oraRemoveFails : Oracles := ⟨false, true, false⟩

/-- Initial filesystem: the two source files with distinct contents. -/
def fsAB : FS := ⟨[(srcA, 1), (srcB, 2)], []⟩

/-- The naive target directory for `dt0` without a tag. -/
def tdir0 : FPath := build_target_dir outRoot dt0 none

/-- The naive destination for `dt0` and extension `jpg`. -/
def destMain : FPath := tdir0 ++ [format_filename dt0 jpgName]

/-- The collision destination for source digest 1 at prefix length 8. -/
def alt8Path : FPath :=
  tdir0 ++ [format_filename_with_suffix dt0 ( hash_prefix (hexOfDigest 1) 8) jpgName]

/-- Collision scenario: the naive destination is occupied by different
content and the length-8 suffixed name is occupied as well. -/
def fsC1 : FS := ⟨[(srcA, 1), (destMain, 2), (alt8Path, 3)], []⟩

/-- Duplicate scenario: the naive destination holds the same content as the
source. -/
def fsC2 : FS := ⟨[(srcA, 1), (destMain, 1)], []⟩

/-- Two files with the same timestamp processed in one run. -/
def jobsAB : List Job := [⟨srcA, some dt0, oraAll⟩, ⟨srcB, some dt0, oraAll⟩]

/-- A tag directory content without media: one empty subdirectory and one
unsupported file. -/
def treeNoMedia : EList :=
  .cons (.dir ("sub".toList) .nil) (.cons (.file ("x.txt".toList) 5) .nil)

/-- A tag directory content with one supported media file nested inside an
otherwise-empty structure. -/
def treeMedia : EList :=
  .cons (.dir ("deep".toList) (.cons (.file ("y.jpg".toList) 7) .nil)) .nil

/-- A tag directory content that prunes away completely. -/
def treeEmptyDirs : EList :=
  .cons (.dir ("s1".toList) (.cons (.dir ("s2".toList) .nil) .nil)) .nil

/-- The tag directory path used in pruning witnesses. -/
def tagDir0 : FPath := inRoot ++ ["tag".toList]

/-- A date parser that accepts nothing, a degenerate collaborator stub. -/
def parseNone : FName → Option DT := fun _ => none

/-- A source file nested under a tag directory of the input root. -/
def srcTagged : FPath := inRoot ++ ["tag".toList, "f.jpg".toList]

/-! ## Helper lemmas -/

theorem natDigitsAux_congr : ∀ (f1 f2 n : Nat), n < f1 → n < f2 →
    natDigitsAux f1 n = natDigitsAux f2 n := by
  intro f1
  induction f1 with
  | zero => intro f2 n h1 _; exact absurd h1 (Nat.not_lt_zero n)
  | succ k ih =>
    intro f2 n h1 h2
    cases f2 with
    | zero => exact absurd h2 (Nat.not_lt_zero n)
    | succ l =>
      simp only [natDigitsAux]
      by_cases hn : n < 10
      · simp [hn]
      · have hd : n / 10 < n := Nat.div_lt_self (by omega) (by omega)
        simp only [hn, if_false]
        rw [ih l (n / 10) (by omega) (by omega)]

theorem natStr_of_lt (n : Nat) (h : n < 10) : natStr n = [digitChar n] := by
  simp [natStr, natDigitsAux, h]

theorem natStr_ge (n : Nat) (h : 10 ≤ n) :
    natStr n = natStr (n / 10) ++ [digitChar (n % 10)] := by
  have h0 : ¬ n < 10 := by omega
  have hd : n / 10 < n := Nat.div_lt_self (by omega) (by omega)
  have step : natDigitsAux (n + 1) n =
      if n < 10 then [digitChar n]
      else natDigitsAux n (n / 10) ++ [digitChar (n % 10)] := rfl
  rw [natStr, step, if_neg h0,
    natDigitsAux_congr n (n / 10 + 1) (n / 10) (by omega) (by omega)]
  rfl

theorem natStr_two (n : Nat) (h1 : 10 ≤ n) (h2 : n < 100) :
    natStr n = [digitChar (n / 10), digitChar (n % 10)] := by
  rw [natStr_ge n h1, natStr_of_lt (n / 10) (by omega)]
  rfl

theorem natStr_three (n : Nat) (h1 : 100 ≤ n) (h2 : n < 1000) :
    natStr n = [digitChar (n / 100), digitChar (n / 10 % 10), digitChar (n % 10)] := by
  rw [natStr_ge n (by omega), natStr_two (n / 10) (by omega) (by omega)]
  have hq : n / 10 / 10 = n / 100 := by omega
  rw [hq]
  rfl

theorem natStr_four (n : Nat) (h1 : 1000 ≤ n) (h2 : n < 10000) :
    natStr n = [digitChar (n / 1000), digitChar (n / 100 % 10),
      digitChar (n / 10 % 10), digitChar (n % 10)] := by
  rw [natStr_ge n (by omega), natStr_three (n / 10) (by omega) (by omega)]
  have hq1 : n / 10 / 100 = n / 1000 := by omega
  have hq2 : n / 10 % 10 = n / 10 % 10 := rfl
  have hq3 : n / 10 / 10 % 10 = n / 100 % 10 := by omega
  rw [hq1, hq3]
  rfl

theorem specExactDigits_two (n : Nat) :
    specExactDigits 2 n = [digitChar (n / 10 % 10), digitChar (n % 10)] := by
  have hr : List.range 2 = [0, 1] := rfl
  simp [specExactDigits, hr]

theorem specExactDigits_four (n : Nat) :
    specExactDigits 4 n = [digitChar (n / 1000 % 10), digitChar (n / 100 % 10),
      digitChar (n / 10 % 10), digitChar (n % 10)] := by
  have hr : List.range 4 = [0, 1, 2, 3] := rfl
  simp [specExactDigits, hr]

theorem rustPad_two (n : Nat) (h : n < 100) : rustPad 2 n = specExactDigits 2 n := by
  rw [specExactDigits_two]
  rcases Nat.lt_or_ge n 10 with h1 | h1
  · rw [rustPad, natStr_of_lt n h1]
    have e1 : n / 10 % 10 = 0 := by omega
    have e2 : n % 10 = n := by omega
    rw [e1, e2]
    rfl
  · rw [rustPad, natStr_two n h1 h]
    have e1 : n / 10 % 10 = n / 10 := by omega
    rw [e1]
    rfl

theorem rustPad_four (n : Nat) (h : n < 10000) : rustPad 4 n = specExactDigits 4 n := by
  rw [specExactDigits_four]
  rcases Nat.lt_or_ge n 10 with h1 | h1
  · rw [rustPad, natStr_of_lt n h1]
    have e1 : n / 1000 % 10 = 0 := by omega
    have e2 : n / 100 % 10 = 0 := by omega
    have e3 : n / 10 % 10 = 0 := by omega
    have e4 : n % 10 = n := by omega
    rw [e1, e2, e3, e4]
    rfl
  rcases Nat.lt_or_ge n 100 with h2 | h2
  · rw [rustPad, natStr_two n h1 h2]
    have e1 : n / 1000 % 10 = 0 := by omega
    have e2 : n / 100 % 10 = 0 := by omega
    have e3 : n / 10 % 10 = n / 10 := by omega
    rw [e1, e2, e3]
    rfl
  rcases Nat.lt_or_ge n 1000 with h3 | h3
  · rw [rustPad, natStr_three n h2 h3]
    have e1 : n / 1000 % 10 = 0 := by omega
    have e2 : n / 100 % 10 = n / 100 := by omega
    rw [e1, e2]
    rfl
  · rw [rustPad, natStr_four n h3 h]
    have e1 : n / 1000 % 10 = n / 1000 := by omega
    rw [e1]
    rfl

theorem filesGet_erase (l : List (FPath × Nat)) (p q : FPath) :
    filesGet (filesErase l p) q = if q = p then none else filesGet l q := by
  induction l with
  | nil => simp [filesErase, filesGet]
  | cons hd tl ih =>
    obtain ⟨a, v⟩ := hd
    by_cases hap : a = p
    · subst hap
      by_cases hqa : q = a
      · subst hqa
        simp [filesErase, ih]
      · simp [filesErase, filesGet, hqa, ih]
    · by_cases hqa : q = a
      · subst hqa
        simp [filesErase, filesGet, hap]
      · simp [filesErase, filesGet, hap, hqa, ih]

theorem filesGet_insert (l : List (FPath × Nat)) (p q : FPath) (v : Nat) :
    filesGet (filesInsert p v l) q = if q = p then some v else filesGet l q := by
  by_cases hqp : q = p
  · simp [filesInsert, filesGet, hqp]
  · simp [filesInsert, filesGet, hqp, filesGet_erase]

theorem fsGet_createDirAll (p : FPath) (fs : FS) (q : FPath) :
    fsGet (createDirAll p fs) q = fsGet fs q := rfl

theorem fsGet_ensureParentDirs (d : Bool) (dest : FPath) (fs : FS) (q : FPath) :
    fsGet (ensureParentDirs d dest fs) q = fsGet fs q := by
  unfold ensureParentDirs
  cases hp : parentDir dest with
  | none => rfl
  | some par =>
    by_cases hd : d
    · simp [hd]
    · simp [hd, fsGet_createDirAll]

theorem fsGet_rename (src dest : FPath) (fs : FS) (b : Nat)
    (h : fsGet fs src = some b) (q : FPath) :
    fsGet (renameFile src dest fs) q =
      if q = dest then some b else if q = src then none else fsGet fs q := by
  unfold renameFile
  rw [show filesGet fs.files src = some b from h]
  simp [fsGet, filesGet_insert, filesGet_erase]

theorem fsGet_copy (src dest : FPath) (fs : FS) (b : Nat)
    (h : fsGet fs src = some b) (q : FPath) :
    fsGet (copyFile src dest fs) q = if q = dest then some b else fsGet fs q := by
  unfold copyFile
  rw [show filesGet fs.files src = some b from h]
  simp [fsGet, filesGet_insert]

theorem fsGet_remove (p : FPath) (fs : FS) (q : FPath) :
    fsGet (removeFile p fs) q = if q = p then none else fsGet fs q := by
  simp [removeFile, fsGet, filesGet_erase]

theorem mem_ladder_cases (n : Nat) (h : n ∈ ladder) :
    n = 8 ∨ n = 12 ∨ n = 16 ∨ n = 20 := by
  simpa [ladder] using h

theorem findFreeLen_eq_some (occ : Nat → Bool) (n₀ : Nat) (hmem : n₀ ∈ ladder)
    (hfree : occ n₀ = false) (hmin : ∀ m ∈ ladder, m < n₀ → occ m = true) :
    findFreeLen occ = some n₀ := by
  rcases mem_ladder_cases n₀ hmem with h | h | h | h <;> subst h
  · simp [findFreeLen, collisionLoop, hfree]
  · have o8 : occ 8 = true := hmin 8 (by simp [ladder]) (by omega)
    simp [findFreeLen, collisionLoop, o8, hfree]
  · have o8 : occ 8 = true := hmin 8 (by simp [ladder]) (by omega)
    have o12 : occ 12 = true := hmin 12 (by simp [ladder]) (by omega)
    simp [findFreeLen, collisionLoop, o8, o12, hfree]
  · have o8 : occ 8 = true := hmin 8 (by simp [ladder]) (by omega)
    have o12 : occ 12 = true := hmin 12 (by simp [ladder]) (by omega)
    have o16 : occ 16 = true := hmin 16 (by simp [ladder]) (by omega)
    simp [findFreeLen, collisionLoop, o8, o12, o16, hfree]

theorem findFreeLen_eq_none (occ : Nat → Bool)
    (hall : ∀ m ∈ ladder, occ m = true) : findFreeLen occ = none := by
  have o8 : occ 8 = true := hall 8 (by simp [ladder])
  have o12 : occ 12 = true := hall 12 (by simp [ladder])
  have o16 : occ 16 = true := hall 16 (by simp [ladder])
  have o20 : occ 20 = true := hall 20 (by simp [ladder])
  simp [findFreeLen, collisionLoop, o8, o12, o16, o20]

theorem stripRoot_eq_some_iff (root : FPath) :
    ∀ (src rel : FPath), stripRoot root src = some rel ↔ src = root ++ rel := by
  induction root with
  | nil => intro src rel; simp [stripRoot, eq_comm]
  | cons r rs ih =>
    intro src rel
    cases src with
    | nil => simp [stripRoot]
    | cons x xs =>
      by_cases hx : x = r
      · subst hx
        simp [stripRoot, ih]
      · simp [stripRoot, hx]

theorem move_log (cfg : Cfg) (ora : Oracles) (src dest : FPath) (fs : FS) :
    (move_or_copy cfg ora src dest fs).log = logAllMsg cfg.log (.move src dest) := by
  unfold move_or_copy
  split_ifs <;> rfl

theorem move_dry (cfg : Cfg) (ora : Oracles) (src dest : FPath) (fs : FS)
    (h : cfg.dryRun = true) :
    move_or_copy cfg ora src dest fs = ⟨none, fs, logAllMsg cfg.log (.move src dest)⟩ := by
  simp [move_or_copy, h]

theorem move_err_none_of_renameOk (cfg : Cfg) (ora : Oracles) (src dest : FPath)
    (fs : FS) (hd : cfg.dryRun = false) (hr : ora.renameOk = true) :
    (move_or_copy cfg ora src dest fs).err = none := by
  simp [move_or_copy, hd, hr]

theorem move_fs_of_renameOk (cfg : Cfg) (ora : Oracles) (src dest : FPath)
    (fs : FS) (hd : cfg.dryRun = false) (hr : ora.renameOk = true) :
    (move_or_copy cfg ora src dest fs).fs =
      renameFile src dest (ensureParentDirs cfg.dryRun dest fs) := by
  simp [move_or_copy, hd, hr]

theorem handle_one_tags (cfg : Cfg) (ora : Oracles) (dtRes : Option DT)
    (src : FPath) (fs : FS) (tags : List FName) :
    (handle_one cfg ora dtRes src fs tags).tags =
      match infer_tag cfg.input src with
      | some t => insertTag t tags
      | none => tags := by
  unfold handle_one
  cases dtRes with
  | none => rfl
  | some dt =>
    cases hpe : pathExtension src with
    | none => rfl
    | some ex =>
      simp only
      (repeat' split) <;> rfl

theorem handle_one_dry_fs (cfg : Cfg) (ora : Oracles) (dtRes : Option DT)
    (src : FPath) (fs : FS) (tags : List FName) (h : cfg.dryRun = true) :
    (handle_one cfg ora dtRes src fs tags).fs = fs := by
  unfold handle_one
  cases dtRes with
  | none => rfl
  | some dt =>
    cases hpe : pathExtension src with
    | none => rfl
    | some ex =>
      simp only
      (repeat' split) <;> simp_all [move_or_copy]

theorem processFiles_dry_fs (cfg : Cfg) (jobs : List Job) (fs : FS)
    (tags : List FName) (h : cfg.dryRun = true) :
    (processFiles cfg jobs fs tags).fs = fs := by
  induction jobs generalizing fs tags with
  | nil => rfl
  | cons j rest ih =>
    simp only [processFiles]
    rw [ih, handle_one_dry_fs _ _ _ _ _ _ h]

theorem processFiles_outs_length (cfg : Cfg) (jobs : List Job) (fs : FS)
    (tags : List FName) :
    (processFiles cfg jobs fs tags).outs.length = jobs.length := by
  induction jobs generalizing fs tags with
  | nil => rfl
  | cons j rest ih =>
    simp only [processFiles, List.length_cons]
    rw [ih]

theorem handle_one_log_ignores_dry (i o : FPath) (l : LogMode) (e : List FName)
    (d1 d2 : Bool) (ora : Oracles) (dtRes : Option DT) (src : FPath) (fs : FS)
    (tags : List FName) :
    (handle_one ⟨i, o, d1, l, e⟩ ora dtRes src fs tags).log =
    (handle_one ⟨i, o, d2, l, e⟩ ora dtRes src fs tags).log := by
  unfold handle_one
  cases dtRes with
  | none => rfl
  | some dt =>
    cases hpe : pathExtension src with
    | none => rfl
    | some ex =>
      simp only [move_log]
      (repeat' split) <;> rfl

mutual
theorem entryMedia_hasFile (exts : List FName) :
    ∀ e : Entry, entryHasMedia exts e = true → entryHasFile e = true
  | .file n c => by simp [entryHasFile]
  | .dir n cs => by
    intro h
    have h1 : listHasMedia exts cs = true := by simpa [entryHasMedia] using h
    simpa [entryHasFile] using listMedia_hasFile exts cs h1

theorem listMedia_hasFile (exts : List FName) :
    ∀ cs : EList, listHasMedia exts cs = true → listHasFile cs = true
  | .nil => by simp [listHasMedia]
  | .cons e rest => by
    intro h
    rcases Bool.or_eq_true_iff.mp (by simpa [listHasMedia] using h) with h1 | h1
    · simp [listHasFile, entryMedia_hasFile exts e h1]
    · simp [listHasFile, listMedia_hasFile exts rest h1]
end

mutual
theorem entryFiles_eq_nil : ∀ e : Entry, entryHasFile e = false → entryFiles e = []
  | .file n c => by simp [entryHasFile]
  | .dir n cs => by
    intro h
    have h1 : listHasFile cs = false := by simpa [entryHasFile] using h
    simp [entryFiles, listFiles_eq_nil cs h1]

theorem listFiles_eq_nil : ∀ cs : EList, listHasFile cs = false → listFiles cs = []
  | .nil => by simp [listFiles]
  | .cons e rest => by
    intro h
    have h2 := by simpa [listHasFile, Bool.or_eq_false_iff] using h
    simp [listFiles, entryFiles_eq_nil e h2.1, listFiles_eq_nil rest h2.2]
end

mutual
theorem pruneEntry_none_iff : ∀ e : Entry, (pruneEntry e = none ↔ entryHasFile e = false)
  | .file n c => by simp [pruneEntry, entryHasFile]
  | .dir n cs => by
    have h := pruneList_nil_iff cs
    simp only [pruneEntry, entryHasFile]
    cases hp : pruneList cs with
    | nil => simp [h.mp hp]
    | cons a b =>
      have : listHasFile cs ≠ false := fun hf => by
        rw [h.mpr hf] at hp
        exact EList.noConfusion hp
      simp [this]

theorem pruneList_nil_iff : ∀ cs : EList, (pruneList cs = EList.nil ↔ listHasFile cs = false)
  | .nil => by simp [pruneList, listHasFile]
  | .cons e rest => by
    have he := pruneEntry_none_iff e
    have hr := pruneList_nil_iff rest
    simp only [pruneList, listHasFile]
    cases hp : pruneEntry e with
    | some e' =>
      have h1 : entryHasFile e ≠ false := fun hf => by
        rw [he.mpr hf] at hp
        exact Option.noConfusion hp
      simp [h1]
    | none =>
      have h1 : entryHasFile e = false := he.mp hp
      simp [h1, hr]
end

mutual
theorem entryFiles_pruneEntry : ∀ e : Entry, (pruneEntry e).elim [] entryFiles = entryFiles e
  | .file n c => by simp [pruneEntry]
  | .dir n cs => by
    have h := listFiles_pruneList cs
    simp only [pruneEntry]
    cases hp : pruneList cs with
    | nil =>
      have hnf : listHasFile cs = false := (pruneList_nil_iff cs).mp hp
      simp [entryFiles, listFiles_eq_nil cs hnf]
    | cons a b =>
      simp only [Option.elim]
      rw [entryFiles, entryFiles, ← hp, h]

theorem listFiles_pruneList : ∀ cs : EList, listFiles (pruneList cs) = listFiles cs
  | .nil => rfl
  | .cons e rest => by
    have he := entryFiles_pruneEntry e
    have hr := listFiles_pruneList rest
    simp only [pruneList]
    cases hp : pruneEntry e with
    | some e' =>
      rw [hp] at he
      simp only [Option.elim] at he
      simp [listFiles, he, hr]
    | none =>
      rw [hp] at he
      simp only [Option.elim] at he
      simp [listFiles, hr, ← he]
end

/-! ## Claim theorems -/

/-- C7, counterexample: the claim states that for every timestamp the
filename has a four-digit year field.  The Rust formatter `{:04}` imposes a
minimum width only: at year 10000 (representable in chrono) the actual
filename has a five-digit year and length 24, while the claimed fixed-width
shape (built by `specFilename`, which follows the words of the spec) has
length 23 for a three-character extension, so the two disagree. -/
theorem format_filename_year_width_counterexample :
    format_filename dtY5 jpgName ≠ specFilename dtY5 jpgName ∧
    (format_filename dtY5 jpgName).length = 24 ∧
    (specFilename dtY5 jpgName).length = 23 := by
  refine ⟨by decide, by decide, by decide⟩

/-- C7, amended: for every timestamp whose fields lie in the fixed-width
ranges (year below 10000; month, day, hour, minute and second below 100,
which their calendar ranges guarantee), the generated filename is exactly
`YYYY-MM-DD HH.MM.SS.ext`, the suffixed form is exactly
`YYYY-MM-DD HH.MM.SS SUFFIX.ext` with the suffix a space-separated token
immediately before the extension, and the target directory is exactly
`output_root/YYYY/MM`, or `output_root/YYYY/MM <trimmed tag>` when the tag
is present and nonempty after trimming; for larger years the year field is
rendered with minimum width four instead.  The functions are plain total
functions on the timestamp data and take no filesystem argument. -/
theorem format_filename_and_target_dir_shape (dt : DT) (ext sfx : FName)
    (output_root : FPath) (tag : Option FName)
    (hy : dt.year < 10000) (hmo : dt.month < 100) (hd : dt.day < 100)
    (hh : dt.hour < 100) (hmi : dt.minute < 100) (hs : dt.second < 100) :
    format_filename dt ext = specFilename dt ext ∧
    format_filename_with_suffix dt sfx ext = specFilenameSuffixed dt sfx ext ∧
    build_target_dir output_root dt tag = specTargetDir output_root dt tag := by
  refine ⟨?_, ?_, ?_⟩
  · simp [format_filename, specFilename, rustPad_four _ hy, rustPad_two _ hmo,
      rustPad_two _ hd, rustPad_two _ hh, rustPad_two _ hmi, rustPad_two _ hs]
  · simp [format_filename_with_suffix, specFilenameSuffixed, rustPad_four _ hy,
      rustPad_two _ hmo, rustPad_two _ hd, rustPad_two _ hh, rustPad_two _ hmi,
      rustPad_two _ hs]
  · simp [build_target_dir, specTargetDir, rustPad_four _ hy, rustPad_two _ hmo]

/-- C7, witness: the amended statement applied to the concrete timestamp
`2024-07-01 10:00:00` with extension `jpg`. -/
theorem format_filename_and_target_dir_shape_witness :
    (dt0.year < 10000 ∧ dt0.month < 100) ∧
    format_filename dt0 jpgName = specFilename dt0 jpgName ∧
    format_filename_with_suffix dt0 jpgName jpgName =
      specFilenameSuffixed dt0 jpgName jpgName ∧
    build_target_dir outRoot dt0 none = specTargetDir outRoot dt0 none :=
  ⟨⟨by decide, by decide⟩,
    format_filename_and_target_dir_shape dt0 jpgName jpgName outRoot none
      (by decide) (by decide) (by decide) (by decide) (by decide) (by decide)⟩

/-- C8: the inferred tag is the first path component between the input root
and the file, present exactly when the file lies at least two components
below the input root; in particular a file directly in the input root gets
no tag. -/
theorem infer_tag_characterisation :
    (∀ (root src : FPath) (t : FName),
      infer_tag root src = some t ↔ ∃ rest : FPath, rest ≠ [] ∧ src = root ++ t :: rest) ∧
    (∀ (root : FPath) (f : FName), infer_tag root (root ++ [f]) = none) := by
  constructor
  · intro root src t
    unfold infer_tag
    cases hs : stripRoot root src with
    | none =>
      refine iff_of_false (by simp) ?_
      rintro ⟨rest, hrest, heq⟩
      have h2 := (stripRoot_eq_some_iff root src (t :: rest)).mpr heq
      rw [hs] at h2
      exact Option.noConfusion h2
    | some rel =>
      have hsrc : src = root ++ rel := (stripRoot_eq_some_iff root src rel).mp hs
      subst hsrc
      cases rel with
      | nil =>
        refine iff_of_false (by simp) ?_
        rintro ⟨rest, hrest, heq⟩
        have h2 : ([] : FPath) = t :: rest := List.append_cancel_left heq
        exact List.noConfusion h2
      | cons a bs =>
        cases bs with
        | nil =>
          refine iff_of_false (by simp) ?_
          rintro ⟨rest, hrest, heq⟩
          have h2 : [a] = t :: rest := List.append_cancel_left heq
          cases h2
          exact hrest rfl
        | cons b cs =>
          simp only
          constructor
          · intro h
            cases h
            exact ⟨b :: cs, by simp, rfl⟩
          · rintro ⟨rest, hrest, heq⟩
            have h2 : a :: b :: cs = t :: rest := List.append_cancel_left heq
            cases h2
            rfl
  · intro root f
    unfold infer_tag
    have hs : stripRoot root (root ++ [f]) = some [f] :=
      (stripRoot_eq_some_iff root (root ++ [f]) [f]).mpr rfl
    rw [hs]

/-- C8, witness: a file two levels deep gets its directory as tag, a file
directly in the root gets none. -/
theorem infer_tag_characterisation_witness :
    infer_tag inRoot (inRoot ++ [("tag".toList : FName), "f.jpg".toList]) =
      some ("tag".toList) ∧
    infer_tag inRoot (inRoot ++ ["f.jpg".toList]) = none :=
  ⟨(infer_tag_characterisation.1 inRoot
      (inRoot ++ [("tag".toList : FName), "f.jpg".toList]) ("tag".toList)).mpr
      ⟨["f.jpg".toList], by decide, rfl⟩,
    infer_tag_characterisation.2 inRoot ("f.jpg".toList)⟩

/-- C9: growing the prefix length is monotone in the prefix order (the
shorter uppercase prefix is a prefix of the longer one), and for any length
at least the 64-character hex-encoded digest length the function returns the
full uppercase encoding; the length argument is clamped, so the function is
total in it. -/
theorem hash_prefix_mono_and_total :
    (∀ (hex : FName) (m n : Nat), m ≤ n →
      ( hash_prefix hex m) <+: ( hash_prefix hex n)) ∧
    (∀ (hex : FName) (n : Nat), hex.length = 64 → 64 ≤ n →
      hash_prefix hex n = hex.map Char.toUpper) := by
  constructor
  · intro hex m n hmn
    unfold hash_prefix
    have h2 : List.take (min m hex.length) hex =
        List.take (min m hex.length) (List.take (min n hex.length) hex) := by
      rw [List.take_take]
      congr 1
      omega
    rw [h2]
    exact ( List.take_prefix _ _).map _
  · intro hex n h64 hn
    unfold hash_prefix
    rw [show min n hex.length = hex.length by omega, List.take_length]

/-- C9, witness: on a concrete digest encoding, the length-8 prefix is a
prefix of the length-12 prefix, and length 70 yields the full uppercase
encoding. -/
theorem hash_prefix_mono_and_total_witness :
    (8 ≤ 12 ∧ ( hash_prefix (hexOfDigest 1) 8) <+: ( hash_prefix (hexOfDigest 1) 12)) ∧
    ((hexOfDigest 1).length = 64 ∧ 64 ≤ 70 ∧
      hash_prefix (hexOfDigest 1) 70 = (hexOfDigest 1).map Char.toUpper) :=
  ⟨⟨by omega, hash_prefix_mono_and_total.1 (hexOfDigest 1) 8 12 (by omega)⟩,
    ⟨by decide, by omega,
      hash_prefix_mono_and_total.2 (hexOfDigest 1) 70 (by decide) (by omega)⟩⟩

/-- C4, counterexample: the claim states that a failed deletion of the
source after a successful copy is reported as success with caveat context.
In the code the failed `fs::remove_file` is propagated with `?`, so
`move_or_copy` returns an error (whose context records that the rename
failed and the copy succeeded), not success: at a concrete non-dry-run call
with rename failing, copy succeeding and removal failing, the result error
is not `none`. -/
theorem move_or_copy_remove_fail_counterexample :
    (move_or_copy cfgLive oraRemoveFails srcA destMain fsAB).err =
      some MoveErr.renameFailedCopySucceededRemoveFailed ∧
    (move_or_copy cfgLive oraRemoveFails srcA destMain fsAB).err ≠ none := by
  refine ⟨by decide, by decide⟩

/-- C4, amended: for every non-dry-run call of `move_or_copy` on an existing
source, (i) a successful return implies the source no longer exists at its
old path and the destination holds its bytes; (ii) a rename failure followed
by a successful copy and source deletion is not reported as an error;
(iii) a failed copy leaves the source intact and reports an error carrying
both the rename and the copy failures; and (iv) a failed deletion of the
source after a successful copy is reported as an error whose context records
that the copy succeeded (the content is present at both paths), rather than
leaving the duplication unreported. -/
theorem move_or_copy_contract (cfg : Cfg) (ora : Oracles) (src dest : FPath)
    (fs : FS) (b : Nat) (hdry : cfg.dryRun = false)
    (hsrc : fsGet fs src = some b) (hne : src ≠ dest) :
    ((move_or_copy cfg ora src dest fs).err = none →
      fsGet (move_or_copy cfg ora src dest fs).fs src = none ∧
      fsGet (move_or_copy cfg ora src dest fs).fs dest = some b) ∧
    (ora.renameOk = false → ora.copyOk = true → ora.removeOk = true →
      (move_or_copy cfg ora src dest fs).err = none) ∧
    (ora.renameOk = false → ora.copyOk = false →
      (move_or_copy cfg ora src dest fs).err = some .renameAndCopyFailed ∧
      fsGet (move_or_copy cfg ora src dest fs).fs src = some b) ∧
    (ora.renameOk = false → ora.copyOk = true → ora.removeOk = false →
      (move_or_copy cfg ora src dest fs).err =
        some .renameFailedCopySucceededRemoveFailed ∧
      fsGet (move_or_copy cfg ora src dest fs).fs src = some b ∧
      fsGet (move_or_copy cfg ora src dest fs).fs dest = some b) := by
  have hsrc1 : fsGet (ensureParentDirs cfg.dryRun dest fs) src = some b := by
    rw [fsGet_ensureParentDirs]
    exact hsrc
  refine ⟨?_, ?_, ?_, ?_⟩
  · intro herr
    by_cases hr : ora.renameOk
    · rw [move_fs_of_renameOk cfg ora src dest fs hdry (by simpa using hr)]
      rw [fsGet_rename src dest _ b hsrc1 src, fsGet_rename src dest _ b hsrc1 dest]
      constructor
      · rw [if_neg hne, if_pos rfl]
      · rw [if_pos rfl]
    · by_cases hc : ora.copyOk
      · by_cases hrm : ora.removeOk
        · have hfs : (move_or_copy cfg ora src dest fs).fs =
              removeFile src (copyFile src dest (ensureParentDirs cfg.dryRun dest fs)) := by
            simp [move_or_copy, hdry, hr, hc, hrm]
          rw [hfs]
          rw [fsGet_remove, fsGet_remove]
          constructor
          · rw [if_pos rfl]
          · rw [if_neg (fun h => hne h.symm)]
            rw [fsGet_copy src dest _ b hsrc1 dest, if_pos rfl]
        · exfalso
          have : (move_or_copy cfg ora src dest fs).err =
              some .renameFailedCopySucceededRemoveFailed := by
            simp [move_or_copy, hdry, hr, hc, hrm]
          rw [this] at herr
          exact Option.noConfusion herr
      · exfalso
        have : (move_or_copy cfg ora src dest fs).err = some .renameAndCopyFailed := by
          simp [move_or_copy, hdry, hr, hc]
        rw [this] at herr
        exact Option.noConfusion herr
  · intro hr hc hrm
    simp [move_or_copy, hdry, hr, hc, hrm]
  · intro hr hc
    have hfs : (move_or_copy cfg ora src dest fs).fs =
        ensureParentDirs cfg.dryRun dest fs := by
      simp [move_or_copy, hdry, hr, hc]
    constructor
    · simp [move_or_copy, hdry, hr, hc]
    · rw [hfs]
      exact hsrc1
  · intro hr hc hrm
    have hfs : (move_or_copy cfg ora src dest fs).fs =
        copyFile src dest (ensureParentDirs cfg.dryRun dest fs) := by
      simp [move_or_copy, hdry, hr, hc, hrm]
    refine ⟨by simp [move_or_copy, hdry, hr, hc, hrm], ?_, ?_⟩
    · rw [hfs, fsGet_copy src dest _ b hsrc1 src, if_neg hne]
      exact hsrc1
    · rw [hfs, fsGet_copy src dest _ b hsrc1 dest, if_pos rfl]

/-- C4, witness: the amended contract applied to the concrete scenario; in
particular the fallback (rename fails, copy and delete succeed) reports no
error. -/
theorem move_or_copy_contract_witness :
    (cfgLive.dryRun = false ∧ fsGet fsAB srcA = some 1 ∧ srcA ≠ destMain) ∧
    (oraFallback.renameOk = false → oraFallback.copyOk = true →
      oraFallback.removeOk = true →
      (move_or_copy cfgLive oraFallback srcA destMain fsAB).err = none) :=
  ⟨⟨by decide, by decide, by decide⟩,
    (move_or_copy_contract cfgLive oraFallback srcA destMain fsAB 1
      (by decide) (by decide) (by decide)).2.1⟩

/-- C1: when the naive destination exists and the digests differ, the final
destination filename carries as suffix the uppercase hexadecimal prefix of
the source digest at the smallest length among the ladder 8, 12, 16, 20 for
which the suffixed name is free in the target directory, and the outcome is
a rename on collision; when the suffixed names at all four ladder lengths
are occupied, the file fails with the persistent-collision error and no
further length is probed (the loop is exhaustive over the ladder). -/
theorem handle_one_collision_smallest_free_suffix
    (cfg : Cfg) (ora : Oracles) (dt : DT) (src : FPath) (fs : FS)
    (tags : List FName) (ext0 : FName) (srcH dstH : Nat)
    (tdir dest : FPath) (occ : Nat → Bool)
    (hdry : cfg.dryRun = false) (hren : ora.renameOk = true)
    (hext : pathExtension src = some ext0)
    (htdir : tdir = build_target_dir cfg.output dt (infer_tag cfg.input src))
    (hdest : dest = tdir ++ [format_filename dt (toLowerName ext0)])
    (hex2 : fsExists fs dest = true)
    (hsrc : fsGet fs src = some srcH) (hdst : fsGet fs dest = some dstH)
    (hne : srcH ≠ dstH)
    (hocc : occ = fun n => fsExists fs (tdir ++
      [format_filename_with_suffix dt ( hash_prefix (hexOfDigest srcH) n)
        (toLowerName ext0)])) :
    (∀ n₀ ∈ ladder, occ n₀ = false → (∀ m ∈ ladder, m < n₀ → occ m = true) →
      (handle_one cfg ora (some dt) src fs tags).res =
        .ok (.renamedOnCollision (tdir ++ [format_filename_with_suffix dt
          ( hash_prefix (hexOfDigest srcH) n₀) (toLowerName ext0)]))) ∧
    ((∀ m ∈ ladder, occ m = true) →
      (handle_one cfg ora (some dt) src fs tags).res = .error .persistentCollision) := by
  subst hocc
  subst hdest
  subst htdir
  constructor
  · intro n₀ hmem hfree hmin
    have hff := findFreeLen_eq_some _ n₀ hmem hfree hmin
    unfold handle_one
    simp only [hext, hex2, hsrc, hdst, if_neg hne, hff]
    rw [if_neg (show ¬(true = false) by simp)]
    simp only [move_err_none_of_renameOk cfg ora _ _ fs hdry hren]
  · intro hall
    have hffn := findFreeLen_eq_none _ hall
    unfold handle_one
    simp only [hext, hex2, hsrc, hdst, if_neg hne, hffn]
    rw [if_neg (show ¬(true = false) by simp)]

/-- C1, witness: with the naive destination occupied by different content
and the length-8 suffixed name also occupied, the file is renamed to the
length-12 suffixed destination. -/
theorem handle_one_collision_smallest_free_suffix_witness :
    (fsExists fsC1 destMain = true ∧ fsGet fsC1 srcA = some 1 ∧
      fsGet fsC1 destMain = some 2 ∧
      fsExists fsC1 (tdir0 ++ [format_filename_with_suffix dt0
        ( hash_prefix (hexOfDigest 1) 8) (toLowerName jpgName)]) = true ∧
      fsExists fsC1 (tdir0 ++ [format_filename_with_suffix dt0
        ( hash_prefix (hexOfDigest 1) 12) (toLowerName jpgName)]) = false) ∧
    (handle_one cfgLive oraAll (some dt0) srcA fsC1 []).res =
      .ok (.renamedOnCollision (tdir0 ++ [format_filename_with_suffix dt0
        ( hash_prefix (hexOfDigest 1) 12) (toLowerName jpgName)])) :=
  ⟨⟨by decide, by decide, by decide, by decide, by decide⟩,
    (handle_one_collision_smallest_free_suffix cfgLive oraAll dt0 srcA fsC1 []
        jpgName 1 2 tdir0 destMain _ (by decide) (by decide) (by decide)
        (by decide) (by decide) (by decide) (by decide) (by decide) (by decide)
        rfl).1 12 (by decide) (by decide) (by decide)⟩

/-- C2: when the naive destination exists and holds the same digest as the
source, the outcome is a skipped duplicate, the source file is deleted
unless dry-run is set, the existing destination file is left unchanged, and
no other path of the filesystem is touched (in particular no renamed copy is
created). -/
theorem handle_one_duplicate_skip
    (cfg : Cfg) (ora : Oracles) (dt : DT) (src : FPath) (fs : FS)
    (tags : List FName) (ext0 : FName) (h : Nat)
    (tdir dest : FPath)
    (hext : pathExtension src = some ext0)
    (htdir : tdir = build_target_dir cfg.output dt (infer_tag cfg.input src))
    (hdest : dest = tdir ++ [format_filename dt (toLowerName ext0)])
    (hex2 : fsExists fs dest = true)
    (hsrc : fsGet fs src = some h) (hdst : fsGet fs dest = some h)
    (hrm : ora.removeOk = true) (hnsd : src ≠ dest) :
    (handle_one cfg ora (some dt) src fs tags).res = .ok .skippedDuplicate ∧
    (handle_one cfg ora (some dt) src fs tags).fs =
      (if cfg.dryRun then fs else removeFile src fs) ∧
    fsGet (handle_one cfg ora (some dt) src fs tags).fs dest = some h ∧
    (∀ p, p ≠ src →
      fsGet (handle_one cfg ora (some dt) src fs tags).fs p = fsGet fs p) := by
  subst hdest
  subst htdir
  have hmain : (handle_one cfg ora (some dt) src fs tags).res = .ok .skippedDuplicate ∧
      (handle_one cfg ora (some dt) src fs tags).fs =
        (if cfg.dryRun then fs else removeFile src fs) := by
    unfold handle_one
    simp only [hext, hex2, hsrc, hdst]
    rw [if_neg (show ¬(true = false) by simp)]
    simp only [eq_self_iff_true, if_true, hrm]
    cases hd : cfg.dryRun with
    | true => simp
    | false => simp
  refine ⟨hmain.1, hmain.2, ?_, ?_⟩
  · rw [hmain.2]
    cases hd : cfg.dryRun with
    | true => simpa using hdst
    | false =>
      simp only [if_neg (by simp : ¬(false = true))]
      rw [fsGet_remove, if_neg (fun hh => hnsd hh.symm)]
      exact hdst
  · intro p hp
    rw [hmain.2]
    cases hd : cfg.dryRun with
    | true => simp
    | false =>
      simp only [if_neg (by simp : ¬(false = true))]
      rw [fsGet_remove, if_neg hp]

/-- C2, witness: with the naive destination holding the same content as the
source, the outcome is a skipped duplicate and the source is deleted. -/
theorem handle_one_duplicate_skip_witness :
    (fsExists fsC2 destMain = true ∧ fsGet fsC2 srcA = some 1 ∧
      fsGet fsC2 destMain = some 1) ∧
    (handle_one cfgLive oraAll (some dt0) srcA fsC2 []).res = .ok .skippedDuplicate ∧
    (handle_one cfgLive oraAll (some dt0) srcA fsC2 []).fs =
      (if cfgLive.dryRun then fsC2 else removeFile srcA fsC2) :=
  ⟨⟨by decide, by decide, by decide⟩,
    (handle_one_duplicate_skip cfgLive oraAll dt0 srcA fsC2 [] jpgName 1
        tdir0 destMain (by decide) (by decide) (by decide) (by decide)
        (by decide) (by decide) (by decide) (by decide)).1,
    (handle_one_duplicate_skip cfgLive oraAll dt0 srcA fsC2 [] jpgName 1
        tdir0 destMain (by decide) (by decide) (by decide) (by decide)
        (by decide) (by decide) (by decide) (by decide)).2.1⟩

/-- C10: the touched-tag set emitted by `handle_one` records the inferred
tag and keeps all previously recorded tags, and it is entirely independent
of the date result, the filesystem and the system-call oracles — so the tag
is recorded before any fallible step can fail and the insertion is never
rolled back on error. -/
theorem handle_one_tag_recorded (cfg : Cfg) (ora : Oracles) (dtRes : Option DT)
    (src : FPath) (fs : FS) (tags : List FName) :
    (∀ t, infer_tag cfg.input src = some t →
      t ∈ (handle_one cfg ora dtRes src fs tags).tags) ∧
    (∀ x ∈ tags, x ∈ (handle_one cfg ora dtRes src fs tags).tags) ∧
    (∀ (ora' : Oracles) (dtRes' : Option DT) (fs' : FS),
      (handle_one cfg ora dtRes src fs tags).tags =
      (handle_one cfg ora' dtRes' src fs' tags).tags) := by
  refine ⟨?_, ?_, ?_⟩
  · intro t ht
    rw [handle_one_tags, ht]
    by_cases h : t ∈ tags <;> simp [insertTag, h]
  · intro x hx
    rw [handle_one_tags]
    cases hinf : infer_tag cfg.input src with
    | none => exact hx
    | some t =>
      by_cases h : t ∈ tags <;> simp [insertTag, h, hx, List.mem_cons]
  · intro ora' dtRes' fs'
    rw [handle_one_tags, handle_one_tags]

/-- C10, witness: even when date resolution failed for the file (date result
`none`, which makes `handle_one` return the no-date error), the tag of a
nested source file is recorded in the output tag set. -/
theorem handle_one_tag_recorded_witness :
    infer_tag cfgLive.input srcTagged = some ("tag".toList) ∧
    ("tag".toList : FName) ∈ (handle_one cfgLive oraAll none srcTagged fsAB []).tags ∧
    (handle_one cfgLive oraAll none srcTagged fsAB []).res = .error .noDate :=
  ⟨by decide,
    (handle_one_tag_recorded cfgLive oraAll none srcTagged fsAB []).1
      ("tag".toList) (by decide),
    by decide⟩

/-- C5: pruning safety.  (i) A tag directory with supported media anywhere
beneath it is returned entirely untouched (and not even logged);
(ii) a directory entry is removed by the recursive prune exactly when no
file of any kind remains beneath it, so a directory holding anything with
content is never removed and removal only happens to subtrees that have
become chains of empty directories, children before parents by the
recursive definition; (iii) pruning never deletes or moves any file;
(iv) for a tag directory without supported media the surviving children are
exactly the recursive prune of its children and the tag directory itself is
removed exactly when it has become completely empty; (v) the tag directory
is removed if and only if it had no supported media and no file at all
remains beneath it. -/
theorem prune_tag_dir_safety :
    (∀ (lm : LogMode) (exts : List FName) (dry : Bool) (tagDir : FPath) (cs : EList),
      listHasMedia exts cs = true →
      prune_one_tag_dir lm exts dry tagDir cs = ⟨some cs, []⟩) ∧
    (∀ e : Entry, pruneEntry e = none ↔ entryHasFile e = false) ∧
    (∀ cs : EList, listFiles (pruneList cs) = listFiles cs) ∧
    (∀ (lm : LogMode) (exts : List FName) (tagDir : FPath) (cs : EList),
      listHasMedia exts cs = false →
      (prune_one_tag_dir lm exts false tagDir cs).tree =
        (if isNilE (pruneList cs) then none else some (pruneList cs))) ∧
    (∀ (lm : LogMode) (exts : List FName) (tagDir : FPath) (cs : EList),
      ((prune_one_tag_dir lm exts false tagDir cs).tree = none ↔
        (listHasMedia exts cs = false ∧ listHasFile cs = false))) := by
  have isNilE_true_iff : ∀ l : EList, isNilE l = true ↔ l = EList.nil := by
    intro l
    cases l <;> simp [isNilE]
  have htree : ∀ (lm : LogMode) (exts : List FName) (tagDir : FPath) (cs : EList),
      listHasMedia exts cs = false →
      (prune_one_tag_dir lm exts false tagDir cs).tree =
        (if isNilE (pruneList cs) then none else some (pruneList cs)) := by
    intro lm exts tagDir cs h
    simp only [prune_one_tag_dir, h]
    simp only [Bool.false_eq_true, if_false]
    split <;> rfl
  refine ⟨?_, pruneEntry_none_iff, listFiles_pruneList, htree, ?_⟩
  · intro lm exts dry tagDir cs h
    simp [prune_one_tag_dir, h]
  · intro lm exts tagDir cs
    by_cases hm : listHasMedia exts cs = true
    · simp [prune_one_tag_dir, hm]
    · have hm' : listHasMedia exts cs = false := by simpa using hm
      rw [htree lm exts tagDir cs hm', hm']
      simp only [true_and]
      by_cases hf : listHasFile cs = false
      · have hnil : pruneList cs = .nil := (pruneList_nil_iff cs).mpr hf
        simp [hnil, isNilE, hf]
      · have hne : pruneList cs ≠ .nil := fun hh => hf ((pruneList_nil_iff cs).mp hh)
        cases hp : pruneList cs with
        | nil => exact absurd hp hne
        | cons a b => simp [isNilE, hf]

/-- C5, witness: a tag directory with nested media is untouched; a tag
directory holding only an empty subdirectory and one unsupported file keeps
the file, loses the empty subdirectory, and is not removed; a tag directory
holding only empty directory chains is removed. -/
theorem prune_tag_dir_safety_witness :
    (listHasMedia extsJpg treeMedia = true ∧
      prune_one_tag_dir LogMode.all extsJpg false tagDir0 treeMedia =
        ⟨some treeMedia, []⟩) ∧
    (listHasMedia extsJpg treeNoMedia = false ∧
      (prune_one_tag_dir LogMode.all extsJpg false tagDir0 treeNoMedia).tree =
        (if isNilE (pruneList treeNoMedia) then none
          else some (pruneList treeNoMedia)) ∧
      (prune_one_tag_dir LogMode.all extsJpg false tagDir0 treeNoMedia).tree =
        some (.cons (.file ("x.txt".toList) 5) .nil)) ∧
    (prune_one_tag_dir LogMode.all extsJpg false tagDir0 treeEmptyDirs).tree = none :=
  ⟨⟨by decide, prune_tag_dir_safety.1 LogMode.all extsJpg false tagDir0 treeMedia
      (by decide)⟩,
    ⟨by decide,
      prune_tag_dir_safety.2.2.2.1 LogMode.all extsJpg tagDir0 treeNoMedia (by decide),
      by rfl⟩,
    (prune_tag_dir_safety.2.2.2.2 LogMode.all extsJpg tagDir0 treeEmptyDirs).mpr
      ⟨by decide, by decide⟩⟩

/-- C3, code divergence at a concrete failing input: for a file where
exiftool exits with an error while the filesystem mtime is available, the
date-resolution copy compiled into the binary (`main.rs` lines 369-422,
called by `handle_one` at line 221; `main.rs` declares no modules, so the
`metadata.rs` module is dead code) yields no date, and `handle_one` then
records the no-date per-file error — whereas the claim, the spec and the
repository's own `metadata.rs` module require the resolution to fall back
to the mtime timestamp, as the embedded `metadata.rs` wrapper indeed does
on the same input.  The per-file error does not abort the run: the loop
still records one outcome for the file. -/
theorem date_resolution_no_fallback_in_main :
    extract_datetime_with_exiftool_main (some ⟨false, []⟩) parseNone = none ∧
    extract_datetime_with_exiftool (some ⟨false, []⟩) parseNone (some dt0) = some dt0 ∧
    (handle_one cfgLive oraAll
      (extract_datetime_with_exiftool_main (some ⟨false, []⟩) parseNone)
      srcA fsAB []).res = .error .noDate ∧
    (processFiles cfgLive
      [⟨srcA, extract_datetime_with_exiftool_main (some ⟨false, []⟩) parseNone, oraAll⟩]
      fsAB []).outs.length = 1 := by
  refine ⟨rfl, rfl, by decide, by decide⟩

/-- C6, counterexample: with two distinct files sharing the same naive
destination, the dry run leaves the filesystem untouched (first conjunct)
but its log differs from the live run log: the live run moves the first
file, so the second file hits a conflict and logs the conflict, the rename
and the suffixed move, while the dry run logs two plain moves of the naive
destination.  The claim that the intended actions are logged exactly as a
live run would log them is therefore false for this run. -/
theorem dry_run_log_counterexample :
    (processFiles cfgDry jobsAB fsAB []).fs = fsAB ∧
    (processFiles cfgDry jobsAB fsAB []).log ≠ (processFiles cfgLive jobsAB fsAB []).log := by
  refine ⟨by decide, by decide⟩

/-- C6, amended: under dry-run no filesystem mutation is performed:
`move_or_copy` returns with the filesystem unchanged after only logging the
intended move, `handle_one` and the whole per-file loop leave the
filesystem unchanged (no directory creation, no move, no duplicate
deletion), and the pruning phase leaves every tag directory unchanged.
Each individual operation logs its intended action identically with and
without dry-run when applied to the same filesystem state; across a whole
run the dry-run log stream can differ from a live run, because the live
earlier mutations of the live run change the existence checks of later
files. -/
theorem dry_run_no_mutation :
    (∀ (cfg : Cfg) (ora : Oracles) (src dest : FPath) (fs : FS), cfg.dryRun = true →
      move_or_copy cfg ora src dest fs = ⟨none, fs, logAllMsg cfg.log (.move src dest)⟩) ∧
    (∀ (cfg : Cfg) (ora : Oracles) (dtRes : Option DT) (src : FPath) (fs : FS)
      (tags : List FName), cfg.dryRun = true →
      (handle_one cfg ora dtRes src fs tags).fs = fs) ∧
    (∀ (cfg : Cfg) (jobs : List Job) (fs : FS) (tags : List FName),
      cfg.dryRun = true → (processFiles cfg jobs fs tags).fs = fs) ∧
    (∀ (lm : LogMode) (exts : List FName) (tagDir : FPath) (cs : EList),
      (prune_one_tag_dir lm exts true tagDir cs).tree = some cs) ∧
    (∀ (i o : FPath) (l : LogMode) (e : List FName) (d1 d2 : Bool) (ora : Oracles)
      (dtRes : Option DT) (src : FPath) (fs : FS) (tags : List FName),
      (handle_one ⟨i, o, d1, l, e⟩ ora dtRes src fs tags).log =
      (handle_one ⟨i, o, d2, l, e⟩ ora dtRes src fs tags).log) ∧
    (∀ (lm : LogMode) (exts : List FName) (tagDir : FPath) (cs : EList) (d1 d2 : Bool),
      (prune_one_tag_dir lm exts d1 tagDir cs).log =
      (prune_one_tag_dir lm exts d2 tagDir cs).log) := by
  refine ⟨move_dry, handle_one_dry_fs, processFiles_dry_fs, ?_,
    handle_one_log_ignores_dry, ?_⟩
  · intro lm exts tagDir cs
    by_cases hm : listHasMedia exts cs = true <;> simp [prune_one_tag_dir, hm]
  · intro lm exts tagDir cs d1 d2
    unfold prune_one_tag_dir
    split_ifs <;> simp [apply_ite PruneTagRes.log]

/-- C6, witness: the no-mutation statement applied to the concrete dry-run
configuration and the two-file scenario. -/
theorem dry_run_no_mutation_witness :
    cfgDry.dryRun = true ∧ (processFiles cfgDry jobsAB fsAB []).fs = fsAB :=
  ⟨rfl, dry_run_no_mutation.2.2.1 cfgDry jobsAB fsAB [] rfl⟩

end Mecla
